import Mathlib

/-!
Verification of the selection-bias meme pipeline
(`create_meme.py`, `step4_create_block_letter.py`, `step5_create_masked.py`).

Numpy arrays are embedded as a shape list together with a flat row-major
buffer of rational numbers (the code works in float32; we use exact
rationals, so the linear-rescale and threshold arithmetic is exact).
-/

/-- A numpy `ndarray`: a shape and a flat row-major data buffer. -/
structure NDArray where
  shape : List Nat
  data : List ℚ
deriving DecidableEq, Repr

/-- Well-formedness: the buffer length matches the product of the shape. -/
def NDArray.WF (a : NDArray) : Prop := a.data.length = a.shape.prod

instance (a : NDArray) : Decidable a.WF := by unfold NDArray.WF; infer_instance

/-- The error kinds raised by the pipeline (all `ValueError` in the source):
rank not 2/3 in `_prepare_image`, numpy's zero-size reduction in
`arr.min()`, shape mismatch in `create_masked_stipple`, and non-positive
dimensions in `create_block_letter_s`. -/
inductive ImgError where
  | invalidShape (shape : List Nat)
  | emptyMin
  | shapeMismatch (s1 s2 : List Nat)
  | invalidDimensions
deriving DecidableEq, Repr

/-- Numpy `arr.min()`: fold of `min` over the (nonempty) buffer.
The `[]` case is junk (numpy raises; the callers check emptiness first). -/
def listMin : List ℚ → ℚ
  | [] => 0
  | x :: xs => xs.foldl min x

/-- Numpy `arr.max()`. -/
def listMax : List ℚ → ℚ
  | [] => 0
  | x :: xs => xs.foldl max x

/-- Split a flat buffer into `h` consecutive chunks of length `w`
(the rows of an `h × w` array stored row-major). -/
def rowsOf (h w : Nat) (data : List ℚ) : List (List ℚ) :=
  match h with
  | 0 => []
  | n + 1 => data.take w :: rowsOf n w (data.drop w)

/-- Numpy `arr.mean(axis=2)` on an `(h, w, c)` array: each pixel becomes the
unweighted average of its `c` channel values.  On any other shape the
array is returned unchanged (the source only calls this when `ndim == 3`). -/
def meanAxis2 (a : NDArray) : NDArray :=
  match a.shape with
  | [h, w, c] => ⟨[h, w], (rowsOf (h * w) c a.data).map (fun ch => ch.sum / (c : ℚ))⟩
  | _ => a

/-- The channel-collapse step of `_prepare_image`:
`if arr.ndim == 3: arr = arr.mean(axis=2)`. -/
def collapse (a : NDArray) : NDArray :=
  if a.shape.length = 3 then meanAxis2 a else a

/-- Model of `_prepare_image` from `create_meme.py`: collapse a trailing channel
axis by averaging, reject any rank other than 2, then rescale to `[0, 1]`
by `(v - min) / (max - min)` when `max > min`, and to all zeros
(`np.zeros_like`) when `max == min`.  `arr.min()` on an empty array is
numpy's zero-size-reduction `ValueError`, modelled as `emptyMin`. -/
def prepare_image (a : NDArray) : Except ImgError NDArray :=
  let arr := collapse a
  if arr.shape.length ≠ 2 then Except.error (ImgError.invalidShape arr.shape)
  else if arr.data.isEmpty then Except.error ImgError.emptyMin
  else
    let mn := listMin arr.data
    let mx := listMax arr.data
    if mx > mn then Except.ok ⟨arr.shape, arr.data.map (fun v => (v - mn) / (mx - mn))⟩
    else Except.ok ⟨arr.shape, arr.data.map (fun _ => 0)⟩

/-- Numpy `np.clip(x, 0.0, 1.0)` on a single value. -/
def clip01 (q : ℚ) : ℚ := min (max q 0) 1

/-- Model of `create_masked_stipple` from `step5_create_masked.py`: check the two
shapes agree, clamp both buffers into `[0, 1]`, then elementwise
`np.where(mask < threshold, 1.0, stipple)`. -/
def create_masked_stipple (stipple_img mask_img : NDArray) (threshold : ℚ) :
    Except ImgError NDArray :=
  if stipple_img.shape ≠ mask_img.shape then
    Except.error (ImgError.shapeMismatch stipple_img.shape mask_img.shape)
  else
    let stipple := stipple_img.data.map clip01
    let mask := mask_img.data.map clip01
    Except.ok ⟨stipple_img.shape,
      List.zipWith (fun sv mv => if mv < threshold then 1 else sv) stipple mask⟩

/-- Length of the python slice `a[start:stop]` over a sequence of length
`n` (for `start ≤ stop`). -/
def sliceLen (n start stop : Nat) : Nat := min stop n - min start n

/-- Concatenate, for each row, the slice `row[left : left + w2]`
(the data buffer of `a[top:top+h2, left:left+w2]` once rows are picked). -/
def cropRows (left w2 : Nat) (rows : List (List ℚ)) : List ℚ :=
  match rows with
  | [] => []
  | r :: rs => ((r.drop left).take w2) ++ cropRows left w2 rs

/-- Python `max((n - target) // 2, 0)` with floor division: the crop
offset used by `center_crop` on an axis of extent `n`. -/
def topOffset (n target : Nat) : Nat :=
  (max (((n : Int) - (target : Int)).fdiv 2) 0).toNat

/-- Model of `center_crop` from `create_meme.py` (closure over the common minima
`h_min`, `w_min`): `top = max((h - h_min) // 2, 0)`,
`left = max((w - w_min) // 2, 0)` with python floor division, then the
slice `a[top:top+h_min, left:left+w_min]`.  Non-rank-2 input is returned
unchanged (the source only applies it to prepared 2-D images). -/
def center_crop (h_min w_min : Nat) (a : NDArray) : NDArray :=
  match a.shape with
  | [h, w] =>
    let top := topOffset h h_min
    let left := topOffset w w_min
    let picked := ((rowsOf h w a.data).drop top).take h_min
    ⟨[sliceLen h top (top + h_min), sliceLen w left (left + w_min)],
      cropRows left w_min picked⟩
  | _ => a

/-- The external PIL collaborator for `create_block_letter_s`: font
metrics (`draw.textbbox` width/height at a font size) and glyph rendering
(`Image.new("L", (W, H), 255)` followed by `draw.text`), which always
yields an 8-bit grayscale buffer of exactly `H * W` pixels. -/
structure GlyphRenderer where
  measure : Nat → Char → Nat × Nat
  draw : Nat → Nat → ℚ → ℚ → Nat → Char → List Nat
  draw_length : ∀ hgt wid x y s c, (draw hgt wid x y s c).length = hgt * wid
  draw_le : ∀ hgt wid x y s c, ∀ v ∈ draw hgt wid x y s c, v ≤ 255

/-- Model of `create_block_letter_s` from `step4_create_block_letter.py`:
reject non-positive dimensions, clamp the size ratio into `[0.1, 1.0]`,
take the font size `int(min(height, width) * ratio)`, pick the first
character of `letter` (default `'S'` when empty), center the measured
glyph box at `((W - tw) / 2, (H - th) / 2)` (true division), draw, and
scale the 8-bit canvas to `[0, 1]` by dividing by 255. -/
def create_block_letter_s (R : GlyphRenderer) (height width : Int)
    (letter : List Char) (sizeRatioArg : ℚ) : Except ImgError NDArray :=
  if height ≤ 0 ∨ width ≤ 0 then Except.error ImgError.invalidDimensions
  else
    let r := max (1/10 : ℚ) (min 1 sizeRatioArg)
    let hgt := height.toNat
    let wid := width.toNat
    let base_size := (⌊((min hgt wid : Nat) : ℚ) * r⌋).toNat
    let text := match letter with
      | [] => 'S'
      | c :: _ => c
    let tw := (R.measure base_size text).1
    let th := (R.measure base_size text).2
    let x : ℚ := ((wid : ℚ) - (tw : ℚ)) / 2
    let y : ℚ := ((hgt : ℚ) - (th : ℚ)) / 2
    let buf := R.draw hgt wid x y base_size text
    Except.ok ⟨[hgt, wid], buf.map (fun v : Nat => (v : ℚ) / 255)⟩

/-! ### Helper lemmas: clamping -/

theorem clip01_nonneg (q : ℚ) : 0 ≤ clip01 q := by
  unfold clip01
  rcases le_total (max q 0) 1 with h | h
  · simp [min_eq_left h]
  · simp [min_eq_right h]

theorem clip01_le_one (q : ℚ) : clip01 q ≤ 1 := min_le_right _ _

theorem clip01_eq_self {q : ℚ} (h0 : 0 ≤ q) (h1 : q ≤ 1) : clip01 q = q := by
  unfold clip01
  rw [max_eq_left h0, min_eq_left h1]

theorem clip01_idem (q : ℚ) : clip01 (clip01 q) = clip01 q :=
  clip01_eq_self (clip01_nonneg q) (clip01_le_one q)

/-! ### Helper lemmas: folded minima and maxima (numpy `min` / `max`) -/

theorem foldl_min_le_init (x : ℚ) (l : List ℚ) : l.foldl min x ≤ x := by
  induction l generalizing x with
  | nil => simp
  | cons a l ih =>
    calc (a :: l).foldl min x = l.foldl min (min x a) := rfl
    _ ≤ min x a := ih _
    _ ≤ x := min_le_left _ _

theorem foldl_min_le_mem (x : ℚ) {y : ℚ} {l : List ℚ} (hy : y ∈ l) :
    l.foldl min x ≤ y := by
  induction l generalizing x with
  | nil => cases hy
  | cons a l ih =>
    rcases List.mem_cons.mp hy with h | h
    · subst h
      calc (y :: l).foldl min x = l.foldl min (min x y) := rfl
      _ ≤ min x y := foldl_min_le_init _ _
      _ ≤ y := min_le_right _ _
    · exact ih _ h

theorem foldl_min_mem (x : ℚ) (l : List ℚ) :
    l.foldl min x = x ∨ l.foldl min x ∈ l := by
  induction l generalizing x with
  | nil => left; rfl
  | cons a l ih =>
    rcases ih (min x a) with h | h
    · rcases min_choice x a with hc | hc
      · left; rw [List.foldl_cons, h, hc]
      · right; rw [List.foldl_cons, h, hc]; exact List.mem_cons_self _ _
    · right; exact List.mem_cons_of_mem _ h

theorem foldl_min_map (f : ℚ → ℚ) (hf : ∀ a b, min (f a) (f b) = f (min a b))
    (l : List ℚ) (x : ℚ) : (l.map f).foldl min (f x) = f (l.foldl min x) := by
  induction l generalizing x with
  | nil => rfl
  | cons a l ih =>
    calc ((a :: l).map f).foldl min (f x)
        = (l.map f).foldl min (min (f x) (f a)) := rfl
    _ = (l.map f).foldl min (f (min x a)) := by rw [hf]
    _ = f (l.foldl min (min x a)) := ih _
    _ = f ((a :: l).foldl min x) := rfl

theorem foldl_max_le_init (x : ℚ) (l : List ℚ) : x ≤ l.foldl max x := by
  induction l generalizing x with
  | nil => simp
  | cons a l ih =>
    calc x ≤ max x a := le_max_left _ _
    _ ≤ l.foldl max (max x a) := ih _
    _ = (a :: l).foldl max x := rfl

theorem foldl_max_le_mem (x : ℚ) {y : ℚ} {l : List ℚ} (hy : y ∈ l) :
    y ≤ l.foldl max x := by
  induction l generalizing x with
  | nil => cases hy
  | cons a l ih =>
    rcases List.mem_cons.mp hy with h | h
    · subst h
      calc y ≤ max x y := le_max_right _ _
      _ ≤ l.foldl max (max x y) := foldl_max_le_init _ _
      _ = (y :: l).foldl max x := rfl
    · exact ih _ h

theorem foldl_max_mem (x : ℚ) (l : List ℚ) :
    l.foldl max x = x ∨ l.foldl max x ∈ l := by
  induction l generalizing x with
  | nil => left; rfl
  | cons a l ih =>
    rcases ih (max x a) with h | h
    · rcases max_choice x a with hc | hc
      · left; rw [List.foldl_cons, h, hc]
      · right; rw [List.foldl_cons, h, hc]; exact List.mem_cons_self _ _
    · right; exact List.mem_cons_of_mem _ h

theorem foldl_max_map (f : ℚ → ℚ) (hf : ∀ a b, max (f a) (f b) = f (max a b))
    (l : List ℚ) (x : ℚ) : (l.map f).foldl max (f x) = f (l.foldl max x) := by
  induction l generalizing x with
  | nil => rfl
  | cons a l ih =>
    calc ((a :: l).map f).foldl max (f x)
        = (l.map f).foldl max (max (f x) (f a)) := rfl
    _ = (l.map f).foldl max (f (max x a)) := by rw [hf]
    _ = f (l.foldl max (max x a)) := ih _
    _ = f ((a :: l).foldl max x) := rfl

theorem listMin_le_mem {l : List ℚ} {y : ℚ} (hy : y ∈ l) : listMin l ≤ y := by
  cases l with
  | nil => cases hy
  | cons a l =>
    rcases List.mem_cons.mp hy with h | h
    · subst h; exact foldl_min_le_init _ _
    · exact foldl_min_le_mem _ h

theorem listMin_mem {l : List ℚ} (h : l ≠ []) : listMin l ∈ l := by
  cases l with
  | nil => exact absurd rfl h
  | cons a l =>
    rcases foldl_min_mem a l with h' | h'
    · rw [listMin, h']; exact List.mem_cons_self _ _
    · exact List.mem_cons_of_mem _ h'

theorem listMax_le_mem {l : List ℚ} {y : ℚ} (hy : y ∈ l) : y ≤ listMax l := by
  cases l with
  | nil => cases hy
  | cons a l =>
    rcases List.mem_cons.mp hy with h | h
    · subst h; exact foldl_max_le_init _ _
    · exact foldl_max_le_mem _ h

theorem listMax_mem {l : List ℚ} (h : l ≠ []) : listMax l ∈ l := by
  cases l with
  | nil => exact absurd rfl h
  | cons a l =>
    rcases foldl_max_mem a l with h' | h'
    · rw [listMax, h']; exact List.mem_cons_self _ _
    · exact List.mem_cons_of_mem _ h'

theorem listMin_map (f : ℚ → ℚ) (hf : ∀ a b, min (f a) (f b) = f (min a b))
    {l : List ℚ} (h : l ≠ []) : listMin (l.map f) = f (listMin l) := by
  cases l with
  | nil => exact absurd rfl h
  | cons a l => exact foldl_min_map f hf l a

theorem listMax_map (f : ℚ → ℚ) (hf : ∀ a b, max (f a) (f b) = f (max a b))
    {l : List ℚ} (h : l ≠ []) : listMax (l.map f) = f (listMax l) := by
  cases l with
  | nil => exact absurd rfl h
  | cons a l => exact foldl_max_map f hf l a

/-! ### Helper lemmas: elementwise masking -/

theorem map_id_of_mem {l : List ℚ} {f : ℚ → ℚ} (h : ∀ x ∈ l, f x = x) :
    l.map f = l := by
  induction l with
  | nil => rfl
  | cons a l ih =>
    rw [List.map_cons, h a (List.mem_cons_self _ _),
      ih (fun x hx => h x (List.mem_cons_of_mem _ hx))]

theorem zipWith_left_absorb (g : ℚ → ℚ → ℚ) (hg : ∀ a b, g (g a b) b = g a b) :
    ∀ (as bs : List ℚ),
      List.zipWith g (List.zipWith g as bs) bs = List.zipWith g as bs := by
  intro as
  induction as with
  | nil => intro bs; rfl
  | cons a as ih =>
    intro bs
    cases bs with
    | nil => rfl
    | cons b bs => simp [List.zipWith_cons_cons, hg, ih bs]

theorem mem_zipWith_mask_bounds (τ : ℚ) (as bs : List ℚ)
    (ha : ∀ a ∈ as, 0 ≤ a ∧ a ≤ 1) :
    ∀ x ∈ List.zipWith (fun sv mv => if mv < τ then (1 : ℚ) else sv) as bs,
      0 ≤ x ∧ x ≤ 1 := by
  induction as generalizing bs with
  | nil => intro x hx; simp at hx
  | cons a as ih =>
    intro x hx
    cases bs with
    | nil => simp at hx
    | cons b bs =>
      rw [List.zipWith_cons_cons, List.mem_cons] at hx
      rcases hx with h | h
      · subst h
        by_cases hb : b < τ
        · simp [hb]
        · simpa [hb] using ha a (List.mem_cons_self _ _)
      · exact ih bs (fun v hv => ha v (List.mem_cons_of_mem _ hv)) x h

/-- C1: threshold masking is elementwise.  For images of identical shape
with all values in `[0, 1]` and a threshold `τ ∈ [0, 1]`,
`create_masked_stipple` succeeds, its output has the input shape (and
buffer length), and each pixel is `1.0` where the mask value is `< τ` and
the stipple image's original, unchanged value where the mask is `≥ τ`. -/
theorem masked_stipple_pixels (s m : NDArray) (τ : ℚ)
    (hsh : s.shape = m.shape) (hWs : s.WF) (hWm : m.WF)
    (hs : ∀ v ∈ s.data, 0 ≤ v ∧ v ≤ 1) (hm : ∀ v ∈ m.data, 0 ≤ v ∧ v ≤ 1)
    (hτ0 : 0 ≤ τ) (hτ1 : τ ≤ 1) :
    ∃ out, create_masked_stipple s m τ = Except.ok out ∧
      out.shape = s.shape ∧ out.data.length = s.data.length ∧
      ∀ i, (hi : i < s.data.length) → (hi2 : i < m.data.length) →
        out.data.getD i 0 = if m.data[i] < τ then 1 else s.data[i] := by
  have hms : s.data.map clip01 = s.data :=
    map_id_of_mem (fun x hx => clip01_eq_self (hs x hx).1 (hs x hx).2)
  have hmm : m.data.map clip01 = m.data :=
    map_id_of_mem (fun x hx => clip01_eq_self (hm x hx).1 (hm x hx).2)
  have hlen : s.data.length = m.data.length := by
    rw [hWs, hWm, hsh]
  have hkey : create_masked_stipple s m τ = Except.ok
      ⟨s.shape, List.zipWith (fun sv mv => if mv < τ then (1 : ℚ) else sv)
        s.data m.data⟩ := by
    rw [create_masked_stipple, if_neg (by simp [hsh])]
    simp only [hms, hmm]
  refine ⟨_, hkey, rfl, ?_, ?_⟩
  · simp only [List.length_zipWith]
    omega
  · intro i hi hi2
    have hz : i < (List.zipWith
        (fun sv mv => if mv < τ then (1 : ℚ) else sv) s.data m.data).length := by
      simp only [List.length_zipWith]
      omega
    rw [List.getD_eq_getElem _ _ hz, List.getElem_zipWith]

/-- C6: `create_masked_stipple` returns the `shapeMismatch` error exactly
when the two input shapes differ (and in that case returns no image); the
shape-mismatch check is also the only error it can ever produce. -/
theorem masked_stipple_mismatch_iff (s m : NDArray) (τ : ℚ) :
    (create_masked_stipple s m τ =
        Except.error (ImgError.shapeMismatch s.shape m.shape) ↔
      s.shape ≠ m.shape) ∧
    ∀ e : ImgError, create_masked_stipple s m τ = Except.error e →
      e = ImgError.shapeMismatch s.shape m.shape := by
  constructor
  · by_cases h : s.shape = m.shape
    · rw [create_masked_stipple, if_neg (by simp [h])]
      simp [h]
    · rw [create_masked_stipple, if_pos (by simp [h])]
      simp [h]
  · intro e he
    by_cases h : s.shape = m.shape
    · rw [create_masked_stipple, if_neg (by simp [h])] at he
      exact absurd he (by simp)
    · rw [create_masked_stipple, if_pos (by simp [h])] at he
      exact (Except.error.inj he).symm

/-- C9: masking is idempotent: if `create_masked_stipple` succeeds with
result `r`, applying it again to `r` with the same mask and the same
threshold returns `r` exactly. -/
theorem masked_stipple_idem (s m : NDArray) (τ : ℚ) (r : NDArray)
    (h : create_masked_stipple s m τ = Except.ok r) :
    create_masked_stipple r m τ = Except.ok r := by
  by_cases hsh : s.shape = m.shape
  · rw [create_masked_stipple, if_neg (by simp [hsh])] at h
    injection h with h'
    subst h'
    rw [create_masked_stipple, if_neg (by simp [hsh])]
    have hbound : ∀ x ∈ List.zipWith (fun sv mv => if mv < τ then (1 : ℚ) else sv)
        (s.data.map clip01) (m.data.map clip01), 0 ≤ x ∧ x ≤ 1 := by
      refine mem_zipWith_mask_bounds τ _ _ ?_
      intro a ha
      rcases List.mem_map.mp ha with ⟨v, _, rfl⟩
      exact ⟨clip01_nonneg v, clip01_le_one v⟩
    have hid : (List.zipWith (fun sv mv => if mv < τ then (1 : ℚ) else sv)
        (s.data.map clip01) (m.data.map clip01)).map clip01
        = List.zipWith (fun sv mv => if mv < τ then (1 : ℚ) else sv)
          (s.data.map clip01) (m.data.map clip01) :=
      map_id_of_mem (fun x hx => clip01_eq_self (hbound x hx).1 (hbound x hx).2)
    simp only [hid]
    rw [zipWith_left_absorb _ (by
      intro a b
      by_cases hb : b < τ <;> simp [hb])]
  · rw [create_masked_stipple, if_pos (by simp [hsh])] at h
    exact absurd h (by simp)

/-! ### Helper lemmas: the normalizer success path -/

theorem collapse_ndim2 {a : NDArray}
    (h : a.shape.length = 2 ∨ a.shape.length = 3) :
    (collapse a).shape.length = 2 := by
  rcases h with h | h
  · rw [collapse, if_neg (by omega)]
    exact h
  · rw [collapse, if_pos h]
    obtain ⟨sh, d⟩ := a
    rcases List.length_eq_three.mp h with ⟨x, y, z, rfl⟩
    rfl

theorem map_zero_replicate (l : List ℚ) :
    l.map (fun _ => (0 : ℚ)) = List.replicate l.length 0 := by
  induction l with
  | nil => rfl
  | cons a l ih => simp [ih, List.replicate_succ]

theorem prepare_image_eval {a : NDArray} (h2 : (collapse a).shape.length = 2)
    (hne : (collapse a).data ≠ []) :
    prepare_image a =
      if listMax (collapse a).data > listMin (collapse a).data
      then Except.ok ⟨(collapse a).shape, (collapse a).data.map
        (fun v => (v - listMin (collapse a).data) /
          (listMax (collapse a).data - listMin (collapse a).data))⟩
      else Except.ok ⟨(collapse a).shape,
        (collapse a).data.map (fun _ => 0)⟩ := by
  simp only [prepare_image]
  rw [if_neg (by simp [h2]), if_neg (by simp [hne])]

theorem prepare_image_no_invalid {a : NDArray}
    (h2 : (collapse a).shape.length = 2) :
    ∀ s, prepare_image a ≠ Except.error (ImgError.invalidShape s) := by
  intro s
  by_cases hne : (collapse a).data = []
  · simp only [prepare_image]
    rw [if_neg (by simp [h2]), if_pos (by simp [hne])]
    simp
  · rw [prepare_image_eval h2 hne]
    by_cases hc : listMax (collapse a).data > listMin (collapse a).data
    · rw [if_pos hc]; simp
    · rw [if_neg hc]; simp

theorem rescale_min_comm {mn d : ℚ} (hd : 0 < d) (x y : ℚ) :
    min ((x - mn) / d) ((y - mn) / d) = (min x y - mn) / d := by
  rcases le_total x y with h | h
  · rw [min_eq_left h,
      min_eq_left ((div_le_div_iff_of_pos_right hd).mpr (sub_le_sub_right h mn))]
  · rw [min_eq_right h,
      min_eq_right ((div_le_div_iff_of_pos_right hd).mpr (sub_le_sub_right h mn))]

theorem rescale_max_comm {mn d : ℚ} (hd : 0 < d) (x y : ℚ) :
    max ((x - mn) / d) ((y - mn) / d) = (max x y - mn) / d := by
  rcases le_total x y with h | h
  · rw [max_eq_right h,
      max_eq_right ((div_le_div_iff_of_pos_right hd).mpr (sub_le_sub_right h mn))]
  · rw [max_eq_left h,
      max_eq_left ((div_le_div_iff_of_pos_right hd).mpr (sub_le_sub_right h mn))]

/-- C2: a constant raw image (rank 2, or rank 3 after channel averaging;
global max equals global min because all values agree) normalizes to the
all-zeros image of the same shape rather than failing. -/
theorem normalizer_constant_zero (a : NDArray)
    (hrank : a.shape.length = 2 ∨ a.shape.length = 3)
    (hne : (collapse a).data ≠ [])
    (hconst : ∀ x ∈ (collapse a).data, ∀ y ∈ (collapse a).data, x = y) :
    prepare_image a = Except.ok
      ⟨(collapse a).shape, List.replicate (collapse a).data.length 0⟩ := by
  have heq : listMax (collapse a).data = listMin (collapse a).data :=
    hconst _ (listMax_mem hne) _ (listMin_mem hne)
  rw [prepare_image_eval (collapse_ndim2 hrank) hne,
    if_neg (by rw [heq]; exact lt_irrefl _), map_zero_replicate]

/-- C3: when the (collapsed) raw image has `max > min`, the normalizer
maps every value `v` to `(v - min) / (max - min)`; the output keeps the
spatial extent, every value lies in `[0, 1]`, and the output's minimum is
exactly `0` and its maximum exactly `1`. -/
theorem normalizer_rescale (a : NDArray)
    (hrank : a.shape.length = 2 ∨ a.shape.length = 3)
    (hne : (collapse a).data ≠ [])
    (hlt : listMin (collapse a).data < listMax (collapse a).data) :
    ∃ out, prepare_image a = Except.ok out ∧
      out.shape = (collapse a).shape ∧
      out.data = (collapse a).data.map (fun v =>
        (v - listMin (collapse a).data) /
          (listMax (collapse a).data - listMin (collapse a).data)) ∧
      (∀ v ∈ out.data, 0 ≤ v ∧ v ≤ 1) ∧
      listMin out.data = 0 ∧ listMax out.data = 1 := by
  have hd : 0 < listMax (collapse a).data - listMin (collapse a).data :=
    sub_pos.mpr hlt
  refine ⟨⟨(collapse a).shape, (collapse a).data.map (fun v =>
      (v - listMin (collapse a).data) /
        (listMax (collapse a).data - listMin (collapse a).data))⟩,
    ?_, rfl, rfl, ?_, ?_, ?_⟩
  · rw [prepare_image_eval (collapse_ndim2 hrank) hne, if_pos hlt]
  · intro v hv
    rcases List.mem_map.mp hv with ⟨x, hx, rfl⟩
    constructor
    · exact div_nonneg (sub_nonneg.mpr (listMin_le_mem hx)) (le_of_lt hd)
    · exact (div_le_one hd).mpr (sub_le_sub_right (listMax_le_mem hx) _)
  · rw [listMin_map _ (rescale_min_comm hd) hne, sub_self, zero_div]
  · rw [listMax_map _ (rescale_max_comm hd) hne, div_self (ne_of_gt hd)]

theorem prepare_image_eval2 (x : NDArray) (h2 : x.shape.length = 2)
    (hne : x.data ≠ []) :
    prepare_image x =
      if listMax x.data > listMin x.data
      then Except.ok ⟨x.shape, x.data.map
        (fun v => (v - listMin x.data) / (listMax x.data - listMin x.data))⟩
      else Except.ok ⟨x.shape, x.data.map (fun _ => 0)⟩ := by
  have hcx : collapse x = x := by rw [collapse, if_neg (by omega)]
  have := prepare_image_eval (a := x) (by rw [hcx]; exact h2) (by rw [hcx]; exact hne)
  rwa [hcx] at this

/-- C7: the normalizer fails with `invalidShape` (reporting the offending
shape) exactly when the input rank is neither 2 nor 3; rank-2 and rank-3
inputs never produce that error. -/
theorem normalizer_invalid_shape_iff (a : NDArray) :
    ((∃ s, prepare_image a = Except.error (ImgError.invalidShape s)) ↔
      a.shape.length ≠ 2 ∧ a.shape.length ≠ 3) ∧
    (a.shape.length ≠ 2 ∧ a.shape.length ≠ 3 →
      prepare_image a = Except.error (ImgError.invalidShape a.shape)) := by
  have hbad : a.shape.length ≠ 2 ∧ a.shape.length ≠ 3 →
      prepare_image a = Except.error (ImgError.invalidShape a.shape) := by
    rintro ⟨h2, h3⟩
    have hca : collapse a = a := by rw [collapse, if_neg h3]
    simp only [prepare_image, hca]
    rw [if_pos h2]
  refine ⟨⟨?_, fun h => ⟨a.shape, hbad h⟩⟩, hbad⟩
  rintro ⟨s, hs⟩
  by_contra hcon
  have h2 : (collapse a).shape.length = 2 := by
    rcases not_and_or.mp hcon with h | h
    · exact collapse_ndim2 (Or.inl (not_not.mp h))
    · exact collapse_ndim2 (Or.inr (not_not.mp h))
  exact prepare_image_no_invalid h2 s hs

/-- C8: for a rank-3 input, normalizing the array equals normalizing the
rank-2 array obtained by averaging across the channel axis. -/
theorem normalizer_channel_collapse (a : NDArray) (h3 : a.shape.length = 3) :
    prepare_image a = prepare_image (meanAxis2 a) := by
  have hm2 : (meanAxis2 a).shape.length = 2 := by
    obtain ⟨sh, d⟩ := a
    rcases List.length_eq_three.mp h3 with ⟨x, y, z, rfl⟩
    rfl
  have hc1 : collapse a = meanAxis2 a := by rw [collapse, if_pos h3]
  have hc2 : collapse (meanAxis2 a) = meanAxis2 a := by
    rw [collapse, if_neg (by omega)]
  simp only [prepare_image, hc1, hc2]

/-- C10: the normalizer is idempotent: whenever `prepare_image` succeeds,
feeding its output back in returns that output unchanged. -/
theorem normalizer_idem (a r : NDArray) (h : prepare_image a = Except.ok r) :
    prepare_image r = Except.ok r := by
  by_cases h2 : (collapse a).shape.length = 2
  · by_cases hne : (collapse a).data = []
    · simp only [prepare_image] at h
      rw [if_neg (by simp [h2]), if_pos (by simp [hne])] at h
      exact absurd h (by simp)
    · rw [prepare_image_eval h2 hne] at h
      by_cases hc : listMax (collapse a).data > listMin (collapse a).data
      · rw [if_pos hc] at h
        injection h with h'
        subst h'
        have hd : (0 : ℚ) < listMax (collapse a).data - listMin (collapse a).data :=
          sub_pos.mpr hc
        have hdne : (collapse a).data.map (fun v =>
            (v - listMin (collapse a).data) /
              (listMax (collapse a).data - listMin (collapse a).data)) ≠ [] := by
          intro hcon
          exact hne (List.map_eq_nil_iff.mp hcon)
        rw [prepare_image_eval2 ⟨(collapse a).shape, (collapse a).data.map
            (fun v => (v - listMin (collapse a).data) /
              (listMax (collapse a).data - listMin (collapse a).data))⟩ h2 hdne,
          listMin_map _ (rescale_min_comm hd) hne,
          listMax_map _ (rescale_max_comm hd) hne,
          sub_self, zero_div, div_self (ne_of_gt hd),
          if_pos (by norm_num)]
        congr 1
        refine congrArg _ (map_id_of_mem ?_)
        intro x _
        norm_num
      · rw [if_neg hc] at h
        injection h with h'
        subst h'
        have hdne : (collapse a).data.map (fun _ => (0 : ℚ)) ≠ [] := by
          intro hcon
          exact hne (List.map_eq_nil_iff.mp hcon)
        rw [prepare_image_eval2 ⟨(collapse a).shape,
            (collapse a).data.map (fun _ => 0)⟩ h2 hdne,
          listMin_map _ (by intro x y; simp) hne,
          listMax_map _ (by intro x y; simp) hne,
          if_neg (by norm_num)]
        congr 1
        refine congrArg _ (map_id_of_mem ?_)
        intro x hx
        rcases List.mem_map.mp hx with ⟨y, _, rfl⟩
        rfl
  · simp only [prepare_image] at h
    rw [if_pos (by simp [h2])] at h
    exact absurd h (by simp)

/-! ### Concrete witnesses -/

/-- Witness for C1 at a concrete stipple/mask pair with threshold 1/2. -/
theorem masked_stipple_pixels_witness :
    ∃ out, create_masked_stipple ⟨[1, 2], [3/10, 3/10]⟩ ⟨[1, 2], [0, 9/10]⟩ (1/2)
        = Except.ok out ∧
      out.shape = (⟨[1, 2], [3/10, 3/10]⟩ : NDArray).shape ∧
      out.data.length = (⟨[1, 2], [3/10, 3/10]⟩ : NDArray).data.length ∧
      ∀ i, (hi : i < (⟨[1, 2], [3/10, 3/10]⟩ : NDArray).data.length) →
        (hi2 : i < (⟨[1, 2], [0, 9/10]⟩ : NDArray).data.length) →
        out.data.getD i 0 =
          if (⟨[1, 2], [0, 9/10]⟩ : NDArray).data[i] < 1/2 then 1
          else (⟨[1, 2], [3/10, 3/10]⟩ : NDArray).data[i] :=
  masked_stipple_pixels ⟨[1, 2], [3/10, 3/10]⟩ ⟨[1, 2], [0, 9/10]⟩ (1/2)
    rfl (by decide) (by decide) (by norm_num) (by norm_num)
    (by norm_num) (by norm_num)

/-- Witness for C2 at a constant 2×2 image of fives. -/
theorem normalizer_constant_zero_witness :
    prepare_image ⟨[2, 2], [5, 5, 5, 5]⟩ =
      Except.ok ⟨[2, 2], List.replicate 4 0⟩ :=
  normalizer_constant_zero ⟨[2, 2], [5, 5, 5, 5]⟩ (Or.inl rfl)
    (by decide) (by decide)

/-- Witness for C3 at the 1×2 image `[0, 4]`. -/
theorem normalizer_rescale_witness :
    ∃ out, prepare_image ⟨[1, 2], [0, 4]⟩ = Except.ok out ∧
      out.shape = (collapse ⟨[1, 2], [0, 4]⟩).shape ∧
      out.data = (collapse ⟨[1, 2], [0, 4]⟩).data.map (fun v =>
        (v - listMin (collapse ⟨[1, 2], [0, 4]⟩).data) /
          (listMax (collapse ⟨[1, 2], [0, 4]⟩).data -
            listMin (collapse ⟨[1, 2], [0, 4]⟩).data)) ∧
      (∀ v ∈ out.data, 0 ≤ v ∧ v ≤ 1) ∧
      listMin out.data = 0 ∧ listMax out.data = 1 :=
  normalizer_rescale ⟨[1, 2], [0, 4]⟩ (Or.inl rfl) (by decide) (by decide)

/-- Witness for C6 realizing the spec's example: shapes `(4,4)` vs
`(4,5)` raise the shape-mismatch error. -/
theorem masked_stipple_mismatch_witness :
    create_masked_stipple ⟨[4, 4], List.replicate 16 0⟩
        ⟨[4, 5], List.replicate 20 0⟩ (1/2) =
      Except.error (ImgError.shapeMismatch [4, 4] [4, 5]) :=
  (masked_stipple_mismatch_iff ⟨[4, 4], List.replicate 16 0⟩
    ⟨[4, 5], List.replicate 20 0⟩ (1/2)).1.mpr (by decide)

/-- Witness for C7 at a rank-4 input. -/
theorem normalizer_invalid_shape_witness :
    prepare_image ⟨[2, 2, 2, 2], List.replicate 16 1⟩ =
      Except.error (ImgError.invalidShape [2, 2, 2, 2]) :=
  (normalizer_invalid_shape_iff ⟨[2, 2, 2, 2], List.replicate 16 1⟩).2
    (by decide)

/-- Witness for C8 at a 1×1×2 input. -/
theorem normalizer_channel_collapse_witness :
    prepare_image ⟨[1, 1, 2], [1, 3]⟩ =
      prepare_image (meanAxis2 ⟨[1, 1, 2], [1, 3]⟩) :=
  normalizer_channel_collapse ⟨[1, 1, 2], [1, 3]⟩ rfl

/-- Witness for C9: remasking a masked image changes nothing. -/
theorem masked_stipple_idem_witness :
    create_masked_stipple ⟨[1, 2], [1, 1/2]⟩ ⟨[1, 2], [0, 1]⟩ (1/2) =
      Except.ok ⟨[1, 2], [1, 1/2]⟩ :=
  masked_stipple_idem ⟨[1, 2], [0, 1/2]⟩ ⟨[1, 2], [0, 1]⟩ (1/2)
    ⟨[1, 2], [1, 1/2]⟩ (by norm_num [create_masked_stipple, clip01])

/-- Witness for C10: renormalizing a normalized image is the identity. -/
theorem normalizer_idem_witness :
    prepare_image ⟨[1, 2], [0, 1]⟩ = Except.ok ⟨[1, 2], [0, 1]⟩ :=
  normalizer_idem ⟨[1, 2], [0, 4]⟩ ⟨[1, 2], [0, 1]⟩
    (by norm_num [prepare_image, collapse, listMin, listMax])

/-! ### Helper lemmas: center cropping -/

theorem topOffset_eq {n t : Nat} (h : t ≤ n) : topOffset n t = (n - t) / 2 := by
  unfold topOffset
  rw [Int.fdiv_eq_ediv _ (by norm_num)]
  omega

theorem topOffset_add_le {n t : Nat} (h : t ≤ n) : topOffset n t + t ≤ n := by
  rw [topOffset_eq h]
  omega

theorem sliceLen_eq {n start len : Nat} (h : start + len ≤ n) :
    sliceLen n start (start + len) = len := by
  unfold sliceLen
  omega

theorem rowsOf_length (h w : Nat) (d : List ℚ) : (rowsOf h w d).length = h := by
  induction h generalizing d with
  | zero => rfl
  | succ n ih => simp [rowsOf, ih]

theorem rowsOf_getD (h w : Nat) (d : List ℚ) (i : Nat) (hi : i < h) :
    (rowsOf h w d).getD i [] = (d.drop (i * w)).take w := by
  induction h generalizing d i with
  | zero => omega
  | succ n ih =>
    cases i with
    | zero => simp [rowsOf]
    | succ j =>
      rw [rowsOf, List.getD_cons_succ, ih (d.drop w) j (by omega),
        List.drop_drop, Nat.succ_mul, Nat.add_comm (j * w) w]

theorem rowsOf_mem_length (h w : Nat) (d : List ℚ) (hlen : h * w ≤ d.length) :
    ∀ r ∈ rowsOf h w d, r.length = w := by
  induction h generalizing d with
  | zero => intro r hr; simp [rowsOf] at hr
  | succ n ih =>
    rw [Nat.succ_mul] at hlen
    intro r hr
    rw [rowsOf] at hr
    rcases List.mem_cons.mp hr with rfl | hr
    · rw [List.length_take]
      omega
    · refine ih (d.drop w) ?_ r hr
      rw [List.length_drop]
      omega

theorem cropRows_getD (left w2 : Nat) (rows : List (List ℚ))
    (hrow : ∀ r ∈ rows, left + w2 ≤ r.length)
    (i j : Nat) (hi : i < rows.length) (hj : j < w2) :
    (cropRows left w2 rows).getD (i * w2 + j) 0 =
      ((rows.getD i []).drop left).getD j 0 := by
  induction rows generalizing i with
  | nil => simp at hi
  | cons r rs ih =>
    have hlen : ((r.drop left).take w2).length = w2 := by
      rw [List.length_take, List.length_drop]
      have := hrow r (List.mem_cons_self _ _)
      omega
    cases i with
    | zero =>
      rw [cropRows, Nat.zero_mul, Nat.zero_add,
        List.getD_append _ _ _ _ (by omega), List.getD_cons_zero,
        List.getD_eq_getElem?_getD, List.getD_eq_getElem?_getD,
        List.getElem?_take, if_pos hj]
    | succ k =>
      rw [cropRows, List.getD_append_right _ _ _ _ (by
          rw [hlen, Nat.succ_mul]
          omega),
        List.getD_cons_succ]
      have hidx : (k + 1) * w2 + j - ((r.drop left).take w2).length
          = k * w2 + j := by
        rw [hlen, Nat.succ_mul]
        omega
      rw [hidx,
        ih (fun q hq => hrow q (List.mem_cons_of_mem _ hq)) k (by
          rw [List.length_cons] at hi
          omega)]

/-- C4: for a rank-2 image of shape `(h, w)` with `h_min ≤ h` and
`w_min ≤ w` (as holds when the targets are the minima over a set of
images), `center_crop` crops at row offset `max((h − h_min)//2, 0)` and
column offset `max((w − w_min)//2, 0)` (floor division) to the window of
extent `(h_min, w_min)`: the output shape is exactly `[h_min, w_min]`
and output pixel `(i, j)` is input pixel `(top + i, left + j)`. -/
theorem center_crop_spec (a : NDArray) (h w h_min w_min : Nat)
    (hsh : a.shape = [h, w]) (hWF : a.WF)
    (hh : h_min ≤ h) (hw : w_min ≤ w) :
    (center_crop h_min w_min a).shape = [h_min, w_min] ∧
    ∀ i j, i < h_min → j < w_min →
      (center_crop h_min w_min a).data.getD (i * w_min + j) 0 =
        a.data.getD
          ((topOffset h h_min + i) * w + (topOffset w w_min + j)) 0 := by
  obtain ⟨sh, d⟩ := a
  change sh = [h, w] at hsh
  subst hsh
  have hdlen : d.length = h * w := by simpa [NDArray.WF] using hWF
  have htop := topOffset_add_le hh
  have hleft := topOffset_add_le hw
  have hcc : center_crop h_min w_min ⟨[h, w], d⟩ =
      ⟨[sliceLen h (topOffset h h_min) (topOffset h h_min + h_min),
        sliceLen w (topOffset w w_min) (topOffset w w_min + w_min)],
       cropRows (topOffset w w_min) w_min
         (((rowsOf h w d).drop (topOffset h h_min)).take h_min)⟩ := rfl
  constructor
  · rw [hcc]
    simp only [sliceLen_eq htop, sliceLen_eq hleft]
  · intro i j hi hj
    rw [hcc]
    have hpicklen :
        ((((rowsOf h w d).drop (topOffset h h_min)).take h_min)).length
          = h_min := by
      rw [List.length_take, List.length_drop, rowsOf_length]
      omega
    have hrow : ∀ r ∈ (((rowsOf h w d).drop (topOffset h h_min)).take h_min),
        topOffset w w_min + w_min ≤ r.length := by
      intro r hr
      have hmem : r ∈ rowsOf h w d :=
        List.mem_of_mem_drop (List.mem_of_mem_take hr)
      rw [rowsOf_mem_length h w d (by omega) r hmem]
      exact hleft
    rw [cropRows_getD _ _ _ hrow i j (by omega) hj]
    have hpick :
        ((((rowsOf h w d).drop (topOffset h h_min)).take h_min)).getD i []
          = (rowsOf h w d).getD (topOffset h h_min + i) [] := by
      rw [List.getD_eq_getElem?_getD, List.getElem?_take, if_pos hi,
        List.getElem?_drop, List.getD_eq_getElem?_getD]
    rw [hpick, rowsOf_getD h w d _ (by omega),
      List.getD_eq_getElem?_getD, List.getElem?_drop, List.getElem?_take,
      if_pos (show topOffset w w_min + j < w by omega), List.getElem?_drop,
      List.getD_eq_getElem?_getD]

/-- C5: for positive requested dimensions, any glyph list and any size
ratio (clamped into `[0.1, 1.0]`, never an error), and any glyph
renderer, `create_block_letter_s` succeeds with an array of exactly shape
`(height, width)` whose values all lie in `[0, 1]`. -/
theorem block_letter_shape_contract (R : GlyphRenderer) (height width : Int)
    (letter : List Char) (sizeRatioArg : ℚ)
    (hH : 0 < height) (hW : 0 < width) :
    ∃ out, create_block_letter_s R height width letter sizeRatioArg
        = Except.ok out ∧
      out.shape = [height.toNat, width.toNat] ∧
      out.data.length = height.toNat * width.toNat ∧
      ∀ v ∈ out.data, 0 ≤ v ∧ v ≤ 1 := by
  rw [create_block_letter_s.eq_def, if_neg (by omega)]
  refine ⟨_, rfl, rfl, ?_, ?_⟩
  · rw [List.length_map, R.draw_length]
  · intro v hv
    rcases List.mem_map.mp hv with ⟨n, hn, rfl⟩
    have h255 := R.draw_le _ _ _ _ _ _ n hn
    constructor
    · positivity
    · rw [div_le_one (by norm_num)]
      exact_mod_cast h255

/-- A degenerate glyph renderer (blank white canvas, zero-size metrics)
used to instantiate the shape contract at concrete dimensions. -/
def blankRenderer : GlyphRenderer where
  measure := fun _ _ => (0, 0)
  draw := fun hgt wid _ _ _ _ => List.replicate (hgt * wid) 255
  draw_length := by
    intro hgt wid x y s c
    exact List.length_replicate _ _
  draw_le := by
    intro hgt wid x y s c v hv
    rw [List.eq_of_mem_replicate hv]

/-- Witness for C4 realizing the spec's example set of shapes
`(10,10)`, `(8,12)`, `(12,8)`: the `(8,12)` member cropped to the common
minima `(8, 8)`. -/
theorem center_crop_spec_witness :
    (center_crop 8 8 ⟨[8, 12], List.replicate 96 0⟩).shape = [8, 8] ∧
    ∀ i j, i < 8 → j < 8 →
      (center_crop 8 8 ⟨[8, 12], List.replicate 96 0⟩).data.getD
          (i * 8 + j) 0 =
        (⟨[8, 12], List.replicate 96 0⟩ : NDArray).data.getD
          ((topOffset 8 8 + i) * 12 + (topOffset 12 8 + j)) 0 :=
  center_crop_spec ⟨[8, 12], List.replicate 96 0⟩ 8 12 8 8 rfl (by decide)
    (by norm_num) (by norm_num)

/-- Witness for C5 at the spec's example `synthesize(100, 200, "S", 0.9)`. -/
theorem block_letter_shape_contract_witness :
    ∃ out, create_block_letter_s blankRenderer 100 200 ['S'] (9/10)
        = Except.ok out ∧
      out.shape = [(100 : Int).toNat, (200 : Int).toNat] ∧
      out.data.length = (100 : Int).toNat * (200 : Int).toNat ∧
      ∀ v ∈ out.data, 0 ≤ v ∧ v ≤ 1 :=
  block_letter_shape_contract blankRenderer 100 200 ['S'] (9/10)
    (by norm_num) (by norm_num)
